import Mathlib

/-
Verification development for the cirq floquet-calibration subsystem
(src/cirq/google/calibration/phased_fsim.py and workflow.py).

Shallow embedding conventions:
* Qubits are natural numbers (cirq LineQubit indices); a Python tuple of
  qubits is a `List Qid`.
* Where the code only compares angles for (near-)equality -- the gate
  translator -- angles are represented exactly, as rational multiples of pi
  (so the value pi/4 is the rational 1/4).  numpy.isclose on such exact
  inputs is modelled as exact equality.
* Where the code feeds angles into unitary matrices -- the correction
  synthesizer -- angles are elements of an arbitrary field (instantiated at
  the reals for the unitary semantics).
* Python dictionaries appear in two roles: the result-parameters dictionary
  is a partial map `(Qid x Qid) -> Option _`; the pairs_map accumulator,
  whose insertion order matters, is an association list.
* A raised Python exception is the `Except.error` of a `WorkflowError`;
  every raise site of the source is mapped to the constructor named after
  the Python exception class.
-/

set_option synthInstance.maxSize 1024

abbrev Qid := Nat

/-- A Python tuple of qubits (in particular a qubit pair) as it appears in
`pairs` tuples of calibration requests. -/
abbrev QubitPair := List Qid

/-- The five optional angles of `PhasedFSimParameters`
(phased_fsim.py lines 32-38); `none` is Python `None` (uncharacterized). -/
structure PhasedFSimParameters where
  theta : Option ℝ
  zeta : Option ℝ
  chi : Option ℝ
  gamma : Option ℝ
  phi : Option ℝ

/-- `PhasedFSimParameters.parameters_for_qubits_swapped`
(phased_fsim.py lines 53-68): negate zeta and chi when set, keep theta,
gamma and phi. -/
def PhasedFSimParameters.parameters_for_qubits_swapped
    (self : PhasedFSimParameters) : PhasedFSimParameters where
  theta := self.theta
  zeta := match self.zeta with | some z => some (-z) | none => none
  chi := match self.chi with | some c => some (-c) | none => none
  gamma := self.gamma
  phi := self.phi

/-- `PhasedFSimParameters.merge_with` (phased_fsim.py lines 70-86):
substitute missing (None) fields with values from `other`. -/
def PhasedFSimParameters.merge_with
    (self other : PhasedFSimParameters) : PhasedFSimParameters where
  theta := match self.theta with | none => other.theta | some t => some t
  zeta := match self.zeta with | none => other.zeta | some z => some z
  chi := match self.chi with | none => other.chi | some c => some c
  gamma := match self.gamma with | none => other.gamma | some g => some g
  phi := match self.phi with | none => other.phi | some p => some p

/-- `PhasedFSimParameters.override_by` (phased_fsim.py lines 88-98):
defined in the source as `other.merge_with(self)`. -/
def PhasedFSimParameters.override_by
    (self other : PhasedFSimParameters) : PhasedFSimParameters :=
  other.merge_with self

/-- `FloquetPhasedFSimCalibrationOptions` (phased_fsim.py lines 101-107). -/
structure FloquetPhasedFSimCalibrationOptions where
  characterize_theta : Bool
  characterize_zeta : Bool
  characterize_chi : Bool
  characterize_gamma : Bool
  characterize_phi : Bool
deriving DecidableEq

/-- `FloquetPhasedFSimCalibrationOptions.all_options`
(phased_fsim.py lines 109-117). -/
def FloquetPhasedFSimCalibrationOptions.all_options :
    FloquetPhasedFSimCalibrationOptions :=
  ⟨true, true, true, true, true⟩

/-- `FloquetPhasedFSimCalibrationOptions.all_except_for_chi_options`
(phased_fsim.py lines 119-127). -/
def FloquetPhasedFSimCalibrationOptions.all_except_for_chi_options :
    FloquetPhasedFSimCalibrationOptions :=
  ⟨true, true, false, true, true⟩

/-- The cirq `FSimGate` value type, polymorphic in the angle representation:
`FSimGate ℚ` is the translator-level gate whose angles are exact rational
multiples of pi, `FSimGate ℝ` is the gate fed to the unitary semantics. -/
structure FSimGate (R : Type) where
  theta : R
  phi : R
deriving DecidableEq

/-- The cirq gate taxonomy, as far as the calibration workflow inspects it
via `isinstance` checks.  Angle arguments of the two-qubit gate family are
rational multiples of pi; the `exponent` and `phase_exponent` arguments of
the ISwap-power family are plain rationals, exactly as in cirq. -/
inductive CirqGate
  | measurementGate
  | singleQubitGate
  | waitGate
  | fsimGate (theta phi : ℚ)
  | iswapPowGate (exponent : ℚ)
  | phasedFSimGate (theta zeta chi gamma phi : ℚ)
  | phasedISwapPowGate (phase_exponent exponent : ℚ)
  | otherGate
deriving DecidableEq

/-- Modelled from the spec: whether cirq's `WaitGate` is a subclass of
`SingleQubitGate` is decided by gate code of this repository that is not
among the provided sources.  The spec treats a wait layer as having no
two-qubit content (the end-to-end example maps the `[Wait(b)]` moment to
None), so wait gates count as single-qubit operations here. -/
def waitGateIsSingleQubit : Bool := true

/-- The `isinstance(op.gate, MeasurementGate)` test of workflow.py line 51. -/
def CirqGate.isMeasurementGate : CirqGate → Bool
  | .measurementGate => true
  | _ => false

/-- The `isinstance(op.gate, SingleQubitGate)` test of workflow.py line 53. -/
def CirqGate.isSingleQubitGate : CirqGate → Bool
  | .singleQubitGate => true
  | .waitGate => waitGateIsSingleQubit
  | _ => false

/-- The rational one-quarter (the angle pi/4 in units of pi), written as a
normal-form `Rat` literal so that the kernel can evaluate comparisons
against it (core `Rat` arithmetic hides behind well-founded `Nat.gcd` and
does not reduce definitionally); `quarterRat_eq_one_div_four` below checks
it is the value 1/4. -/
def quarterRat : ℚ := ⟨1, 4, by decide, Nat.coprime_one_left 4⟩

/-- `sqrt_iswap_gates_translator` (phased_fsim.py lines 237-261).  The final
`np.isclose(angle, pi / 4)` check is the shared tail of every branch; here
it is the surrounding `if` on the computed `angle`. -/
def sqrt_iswap_gates_translator (gate : CirqGate) : Option (FSimGate ℚ) :=
  match gate with
  | .fsimGate theta phi =>
    if phi = 0 then
      if theta = quarterRat then some ⟨quarterRat, 0⟩ else none
    else none
  | .iswapPowGate exponent =>
    if -exponent / 2 = quarterRat then some ⟨quarterRat, 0⟩ else none
  | .phasedFSimGate theta zeta chi gamma phi =>
    if zeta = 0 ∧ chi = 0 ∧ gamma = 0 ∧ phi = 0 then
      if theta = quarterRat then some ⟨quarterRat, 0⟩ else none
    else none
  | .phasedISwapPowGate phase_exponent exponent =>
    if -phase_exponent - 1 / 2 = 0 then
      if exponent / 2 = quarterRat then some ⟨quarterRat, 0⟩ else none
    else none
  | _ => none

/-- `PhasedFSimCalibrationResult` (phased_fsim.py lines 130-135): the
per-pair parameters dictionary is a partial map from ordered qubit pairs. -/
structure PhasedFSimCalibrationResult where
  parameters : Qid × Qid → Option PhasedFSimParameters
  gate : CirqGate
  gate_set : Nat

/-- `PhasedFSimCalibrationResult.get_parameters`
(phased_fsim.py lines 147-153). -/
def PhasedFSimCalibrationResult.get_parameters
    (self : PhasedFSimCalibrationResult) (a b : Qid) :
    Option PhasedFSimParameters :=
  match self.parameters (a, b) with
  | some p => some p
  | none =>
    match self.parameters (b, a) with
    | some p => some p.parameters_for_qubits_swapped
    | none => none

/-- `FloquetPhasedFSimCalibrationRequest`
(phased_fsim.py lines 156-160 and 183-185): translated two-qubit gate,
gate set identifier, ordered tuple of qubit pairs and options. -/
structure FloquetPhasedFSimCalibrationRequest where
  gate : FSimGate ℚ
  gate_set : Nat
  pairs : List QubitPair
  options : FloquetPhasedFSimCalibrationOptions
deriving DecidableEq

instance : Inhabited FloquetPhasedFSimCalibrationRequest :=
  ⟨⟨⟨0, 0⟩, 0, [], ⟨false, false, false, false, false⟩⟩⟩

/-- The cached `qubit_pairs` property (phased_fsim.py lines 162-167):
`ChainMap` over one singleton-per-qubit dict per pair, so a qubit is mapped
to the first pair of the `pairs` tuple containing it. -/
def FloquetPhasedFSimCalibrationRequest.qubit_pairs
    (self : FloquetPhasedFSimCalibrationRequest) (q : Qid) : Option QubitPair :=
  self.pairs.find? (fun pair => decide (q ∈ pair))

/-- A cirq operation as the workflow inspects it: either a `GateOperation`
with a gate and a qubit tuple, or some other operation kind (such as a
`GlobalPhaseOperation`), which the classifier rejects. -/
inductive Operation
  | gateOperation (gate : CirqGate) (qubits : List Qid)
  | nonGateOperation
deriving DecidableEq

/-- A moment is the (ordered, for iteration) collection of its operations. -/
abbrev Moment := List Operation

/-- A circuit is its sequence of moments. -/
abbrev CirqCircuit := List Moment

/-- The Python exceptions raised inside workflow.py, by exception class. -/
inductive WorkflowError
  | incompatibleMomentError (msg : String)
  | valueError (msg : String)
  | nameError (msg : String)
  | assertionError
deriving DecidableEq

/-- Python tuple comparison (lexicographic, shorter tuple first) restricted
to tuples of qubits, as used by `sorted` on pairs. -/
def tupleLeB : List Qid → List Qid → Bool
  | [], _ => true
  | _ :: _, [] => false
  | a :: as, b :: bs => if a < b then true else if b < a then false else tupleLeB as bs

def pairLe (p q : QubitPair) : Prop := tupleLeB p q = true

instance : DecidableRel pairLe := fun p q =>
  instDecidableEqBool (tupleLeB p q) true

def natLe (a b : Qid) : Prop := a ≤ b

instance : DecidableRel natLe := fun a b => Nat.decLe a b

/-- Python `sorted` on a tuple of qubits (`tuple(sorted(op.qubits))`,
workflow.py line 67). -/
def sortedQubits (qs : List Qid) : List Qid := List.insertionSort natLe qs

/-- Python `sorted` on a list of qubit pairs (`tuple(sorted(pairs))`,
workflow.py line 81). -/
def sortedPairs (ps : List QubitPair) : List QubitPair := List.insertionSort pairLe ps

/-- The mutable loop state of `floquet_characterization_for_moment`
(workflow.py lines 41-44). -/
structure MomentScanState where
  measurement : Bool
  single_qubit : Bool
  gate : Option (FSimGate ℚ)
  pairs : List QubitPair
deriving DecidableEq

/-- The `for op in moment` loop of `floquet_characterization_for_moment`
(workflow.py lines 46-68). -/
def momentScan (gates_translator : CirqGate → Option (FSimGate ℚ))
    (pairs_in_canonical_order : Bool) :
    List Operation → MomentScanState → Except WorkflowError MomentScanState
  | [], st => .ok st
  | op :: ops, st =>
    match op with
    | .nonGateOperation =>
      .error (.incompatibleMomentError
        "Moment contains operation different than GateOperation")
    | .gateOperation g qubits =>
      if g.isMeasurementGate then
        momentScan gates_translator pairs_in_canonical_order ops
          { st with measurement := true }
      else if g.isSingleQubitGate then
        momentScan gates_translator pairs_in_canonical_order ops
          { st with single_qubit := true }
      else
        match gates_translator g with
        | none =>
          .error (.incompatibleMomentError
            "Moment contains unsupported non-single qubit operation")
        | some translated_gate =>
          match st.gate with
          | some g0 =>
            if g0 ≠ translated_gate then
              .error (.incompatibleMomentError
                "Moment contains operations resolved to two different gates")
            else
              momentScan gates_translator pairs_in_canonical_order ops
                { st with
                  gate := some translated_gate
                  pairs := st.pairs ++
                    [if pairs_in_canonical_order then sortedQubits qubits else qubits] }
          | none =>
            momentScan gates_translator pairs_in_canonical_order ops
              { st with
                gate := some translated_gate
                pairs := st.pairs ++
                  [if pairs_in_canonical_order then sortedQubits qubits else qubits] }

/-- `floquet_characterization_for_moment` (workflow.py lines 32-83). -/
def floquet_characterization_for_moment (moment : Moment)
    (options : FloquetPhasedFSimCalibrationOptions) (gate_set : Nat)
    (gates_translator : CirqGate → Option (FSimGate ℚ))
    (pairs_in_canonical_order : Bool) (pairs_sorted : Bool) :
    Except WorkflowError (Option FloquetPhasedFSimCalibrationRequest) :=
  match momentScan gates_translator pairs_in_canonical_order moment
      ⟨false, false, none, []⟩ with
  | .error e => .error e
  | .ok st =>
    match st.gate with
    | none => .ok none
    | some gate =>
      if st.measurement || st.single_qubit then
        .error (.incompatibleMomentError
          "Moment contains mixed two-qubit operations and single-qubit operations or measurement operations.")
      else
        .ok (some
          { gate := gate
            gate_set := gate_set
            pairs := if pairs_sorted then sortedPairs st.pairs else st.pairs
            options := options })

/-- Python `set(A).issubset(B)` for pair collections (duplicate-insensitive
membership test). -/
def pairsSubset (A B : List QubitPair) : Bool :=
  A.all (fun p => decide (p ∈ B))

/-- Python `sorted(set(A).union(B))` (workflow.py line 137): the distinct
pairs of both tuples in ascending tuple order. -/
def sortedPairsUnion (A B : List QubitPair) : List QubitPair :=
  List.insertionSort pairLe (A ++ B).dedup

/-- The set of qubits bound by a `qubit_pairs` mapping: every qubit occurring
in some pair of the tuple. -/
def requestQubits (pairs : List QubitPair) : List Qid :=
  pairs.flatten.dedup

/-- The qubit lookup of `qubit_pairs`, as a function of the pairs tuple. -/
def qubitPairOf (pairs : List QubitPair) (q : Qid) : Option QubitPair :=
  pairs.find? (fun pair => decide (q ∈ pair))

/-- The compatibility test of `merge_into_calibrations` (workflow.py lines
130-133): the two per-qubit pairings agree on every qubit common to both
requests. -/
def compatibleQubitPairs (newPairs oldPairs : List QubitPair) : Bool :=
  (requestQubits newPairs).all fun q =>
    !(decide (q ∈ requestQubits oldPairs)) ||
      decide (qubitPairOf newPairs q = qubitPairOf oldPairs q)

/-- The `for index in pairs_map.values()` loop of `merge_into_calibrations`
(workflow.py lines 119-140).  Returns `none` when the loop falls through
without merging; the `assert` statements are `AssertionError`s. -/
def mergeLoop (calibration : FloquetPhasedFSimCalibrationRequest)
    (gate_set : Nat) (options : FloquetPhasedFSimCalibrationOptions)
    (calibrations : List FloquetPhasedFSimCalibrationRequest) :
    List Nat →
    Except WorkflowError (Option (List FloquetPhasedFSimCalibrationRequest × Nat))
  | [] => .ok none
  | index :: rest =>
    let existing := calibrations.getD index default
    if calibration.gate ≠ existing.gate then .error .assertionError
    else if calibration.gate_set ≠ existing.gate_set then .error .assertionError
    else if calibration.options ≠ existing.options then .error .assertionError
    else if pairsSubset calibration.pairs existing.pairs then
      .ok (some (calibrations, index))
    else if pairsSubset existing.pairs calibration.pairs then
      .ok (some (calibrations.set index calibration, index))
    else if compatibleQubitPairs calibration.pairs existing.pairs then
      .ok (some
        (calibrations.set index
          { gate := calibration.gate
            gate_set := gate_set
            pairs := sortedPairsUnion calibration.pairs existing.pairs
            options := options },
        index))
    else mergeLoop calibration gate_set options calibrations rest

/-- `merge_into_calibrations` (workflow.py lines 117-145).  The enclosing
function's mutable `calibrations` list and `pairs_map` dict are threaded
explicitly; `gate_set` and `options` are the enclosing function's arguments
captured by the closure. -/
def merge_into_calibrations (calibration : FloquetPhasedFSimCalibrationRequest)
    (calibrations : List FloquetPhasedFSimCalibrationRequest)
    (pairs_map : List (List QubitPair × Nat))
    (gate_set : Nat) (options : FloquetPhasedFSimCalibrationOptions) :
    Except WorkflowError
      (List FloquetPhasedFSimCalibrationRequest × List (List QubitPair × Nat) × Nat) :=
  match mergeLoop calibration gate_set options calibrations (pairs_map.map (·.2)) with
  | .error e => .error e
  | .ok (some (newCalibrations, index)) => .ok (newCalibrations, pairs_map, index)
  | .ok none =>
    let index := calibrations.length
    .ok (calibrations ++ [calibration], pairs_map ++ [(calibration.pairs, index)], index)

/-- `append_if_missing` (workflow.py lines 108-115). -/
def append_if_missing (calibration : FloquetPhasedFSimCalibrationRequest)
    (calibrations : List FloquetPhasedFSimCalibrationRequest)
    (pairs_map : List (List QubitPair × Nat)) :
    List FloquetPhasedFSimCalibrationRequest × List (List QubitPair × Nat) × Nat :=
  match pairs_map.find? (fun entry => decide (entry.1 = calibration.pairs)) with
  | none =>
    let index := calibrations.length
    (calibrations ++ [calibration], pairs_map ++ [(calibration.pairs, index)], index)
  | some entry => (calibrations, pairs_map, entry.2)

/-- The `for moment in circuit` loop of `floquet_characterization_for_circuit`
(workflow.py lines 155-167), threading the mutable state. -/
def characterizationLoop (gate_set : Nat)
    (gates_translator : CirqGate → Option (FSimGate ℚ))
    (options : FloquetPhasedFSimCalibrationOptions) (merge_sub_sets : Bool) :
    List Moment → List FloquetPhasedFSimCalibrationRequest →
    List (Option Nat) → List (List QubitPair × Nat) →
    Except WorkflowError
      (List FloquetPhasedFSimCalibrationRequest × List (Option Nat))
  | [], calibrations, moments_map, _ => .ok (calibrations, moments_map)
  | moment :: rest, calibrations, moments_map, pairs_map =>
    match floquet_characterization_for_moment moment options gate_set
        gates_translator true true with
    | .error e => .error e
    | .ok none =>
      characterizationLoop gate_set gates_translator options merge_sub_sets
        rest calibrations (moments_map ++ [none]) pairs_map
    | .ok (some calibration) =>
      if merge_sub_sets then
        match merge_into_calibrations calibration calibrations pairs_map
            gate_set options with
        | .error e => .error e
        | .ok (newCalibrations, newPairsMap, index) =>
          characterizationLoop gate_set gates_translator options merge_sub_sets
            rest newCalibrations (moments_map ++ [some index]) newPairsMap
      else
        match append_if_missing calibration calibrations pairs_map with
        | (newCalibrations, newPairsMap, index) =>
          characterizationLoop gate_set gates_translator options merge_sub_sets
            rest newCalibrations (moments_map ++ [some index]) newPairsMap

/-- `floquet_characterization_for_circuit` (workflow.py lines 89-169).
`initial` seeds the `calibrations` and `moments_map` lists; `pairs_map`
always starts empty (workflow.py line 153). -/
def floquet_characterization_for_circuit (circuit : CirqCircuit) (gate_set : Nat)
    (gates_translator : CirqGate → Option (FSimGate ℚ))
    (options : FloquetPhasedFSimCalibrationOptions) (merge_sub_sets : Bool)
    (initial :
      Option (List FloquetPhasedFSimCalibrationRequest × List (Option Nat))) :
    Except WorkflowError
      (List FloquetPhasedFSimCalibrationRequest × List (Option Nat)) :=
  match initial with
  | none =>
    characterizationLoop gate_set gates_translator options merge_sub_sets
      circuit [] [] []
  | some (calibrations, moments_map) =>
    characterizationLoop gate_set gates_translator options merge_sub_sets
      circuit calibrations moments_map []

/-- The calibration backend of `run_characterizations`: a remote hardware
`Engine`, a `PhasedFSimEngineSimulator` (whose `get_calibrations` behaviour
is the opaque collaborator function it carries), or an unsupported value.
`R` is the opaque type of parsed calibration results. -/
inductive EngineBackend (R : Type)
  | hardwareEngine
  | simulator (get_calibrations : List FloquetPhasedFSimCalibrationRequest → List R)
  | unsupported

/-- `run_characterizations` (workflow.py lines 172-230).  In the hardware
`Engine` branch the source reads the name `handler_name` (line 204), which
is bound nowhere in the function or module, so after the `processor_id`
check that branch necessarily raises a Python `NameError` before any
request is batched or any backend call is made; the batching code of lines
207-223 is unreachable. -/
def run_characterizations {R : Type}
    (calibrations : List FloquetPhasedFSimCalibrationRequest)
    (engine : EngineBackend R) (processor_id : Option String)
    (max_layers_per_request : Int) :
    Except WorkflowError (List R) :=
  if max_layers_per_request < 1 then
    .error (.valueError "Maximum number of layers per request must be at least 1")
  else if calibrations = [] then
    .ok []
  else
    let gate_sets := calibrations.map (fun calibration => calibration.gate_set)
    let gate_set := gate_sets.headD 0
    if ¬ gate_sets.all (fun other => decide (gate_set = other)) then
      .error (.valueError
        "All calibrations that run together must be defined for a single gate set")
    else
      match engine with
      | .hardwareEngine =>
        if processor_id = none then
          .error (.valueError "Processor id must not be None for engine simulation")
        else
          .error (.nameError "name handler_name is not defined")
      | .simulator get_calibrations => .ok (get_calibrations calibrations)
      | .unsupported => .error (.valueError "Unsupported engine type")

/-- `PhasedFSimCharacterization` as consumed by `create_corrected_fsim_gate`
(workflow.py lines 296-320): the function reads the `zeta`, `gamma` and
`chi` angles and ignores `theta` and `phi`.  Angles live in an arbitrary
field `K`; the unitary semantics instantiates `K` at the reals. -/
structure PhasedFSimCharacterization (K : Type) where
  theta : K
  zeta : K
  chi : K
  gamma : K
  phi : K

/-- The two operation shapes produced by `create_corrected_fsim_gate`:
`rz(angle).on(q)` and `gate.on(a, b)`. -/
inductive CorrectionOp (K : Type)
  | rzOn (angle : K) (q : Qid)
  | gateOn (gate : FSimGate K) (a b : Qid)

/-- `create_corrected_fsim_gate` (workflow.py lines 296-320): the three-layer
operation tuple and the parallel characterization-index tag list. -/
def create_corrected_fsim_gate {K : Type} [Field K] (qubits : Qid × Qid)
    (gate : FSimGate K) (parameters : PhasedFSimCharacterization K)
    (characterization_index : Option Nat) :
    List (List (CorrectionOp K)) × List (Option Nat) :=
  let zeta := parameters.zeta
  let gamma := parameters.gamma
  let chi := parameters.chi
  let a := qubits.1
  let b := qubits.2
  let alpha := 1 / 2 * (zeta + chi)
  let beta := 1 / 2 * (zeta - chi)
  ([[.rzOn (1 / 2 * gamma - alpha) a, .rzOn (1 / 2 * gamma + alpha) b],
    [.gateOn gate a b],
    [.rzOn (1 / 2 * gamma - beta) a, .rzOn (1 / 2 * gamma + beta) b]],
   [none, characterization_index, none])

/-- The unitary of `cirq.rz(t)`, `diag(exp(-i t/2), exp(i t/2))`, acting on
one tensor factor of a two-qubit register: the phase applied to a basis
state whose bit for that qubit is `bit`. -/
noncomputable def rzPhase (t : ℝ) (bit : Nat) : ℂ :=
  if bit = 0 then Complex.exp (-(t / 2 : ℝ) * Complex.I)
  else Complex.exp ((t / 2 : ℝ) * Complex.I)

/-- `rz(t)` on the first qubit of the pair (basis `|q_a q_b>` with the first
qubit as the high-order bit, cirq's convention). -/
noncomputable def rzOnFirst (t : ℝ) : Matrix (Fin 4) (Fin 4) ℂ :=
  Matrix.diagonal fun i => rzPhase t (i.val / 2)

/-- `rz(t)` on the second qubit of the pair. -/
noncomputable def rzOnSecond (t : ℝ) : Matrix (Fin 4) (Fin 4) ℂ :=
  Matrix.diagonal fun i => rzPhase t (i.val % 2)

/-- The unitary of `cirq.FSimGate(theta, phi)`. -/
noncomputable def fsimUnitary (theta phi : ℝ) : Matrix (Fin 4) (Fin 4) ℂ :=
  !![1, 0, 0, 0;
     0, (Real.cos theta : ℂ), -Complex.I * (Real.sin theta : ℂ), 0;
     0, -Complex.I * (Real.sin theta : ℂ), (Real.cos theta : ℂ), 0;
     0, 0, 0, Complex.exp (-(phi : ℂ) * Complex.I)]

/-- The unitary of `cirq.PhasedFSimGate(theta, zeta, chi, gamma, phi)`. -/
noncomputable def phasedFSimUnitary (theta zeta chi gamma phi : ℝ) :
    Matrix (Fin 4) (Fin 4) ℂ :=
  !![1, 0, 0, 0;
     0, Complex.exp ((-(gamma : ℂ) - (zeta : ℂ)) * Complex.I) * (Real.cos theta : ℂ),
        Complex.exp ((-(gamma : ℂ) + (chi : ℂ)) * Complex.I) *
          (-Complex.I * (Real.sin theta : ℂ)), 0;
     0, Complex.exp ((-(gamma : ℂ) - (chi : ℂ)) * Complex.I) *
          (-Complex.I * (Real.sin theta : ℂ)),
        Complex.exp ((-(gamma : ℂ) + (zeta : ℂ)) * Complex.I) * (Real.cos theta : ℂ), 0;
     0, 0, 0, Complex.exp (-2 * (gamma : ℂ) * Complex.I) *
          Complex.exp (-(phi : ℂ) * Complex.I)]

/-- The unitary of a single synthesized operation with respect to the qubit
order `(a, b)`. -/
noncomputable def correctionOpUnitary (a b : Qid) :
    CorrectionOp ℝ → Matrix (Fin 4) (Fin 4) ℂ
  | .rzOn t q => if q = a then rzOnFirst t else if q = b then rzOnSecond t else 1
  | .gateOn g x y => if x = a ∧ y = b then fsimUnitary g.theta g.phi else 1

/-- The unitary of one layer of synthesized operations (the operations of a
layer act on disjoint qubits, so the fold order is immaterial). -/
noncomputable def momentUnitary (a b : Qid) (ops : List (CorrectionOp ℝ)) :
    Matrix (Fin 4) (Fin 4) ℂ :=
  ops.foldl (fun acc op => correctionOpUnitary a b op * acc) 1

/-- The composed unitary of a sequence of layers: each later layer
multiplies from the left. -/
noncomputable def layersUnitary (a b : Qid)
    (moments : List (List (CorrectionOp ℝ))) : Matrix (Fin 4) (Fin 4) ℂ :=
  moments.foldl (fun acc m => momentUnitary a b m * acc) 1

/-- The translated sqrt-iSWAP gate `FSimGate(pi / 4, 0)` as a circuit gate. -/
def sqrtISwapFSimGate : CirqGate := .fsimGate quarterRat 0

/-- The end-to-end test circuit
`[X(a), Y(c)], [FSim(pi/4, 0)(a, b), FSim(pi/4, 0)(c, d)],
[FSim(pi/4, 0)(b, c)], [Wait(b)]` with `a, b, c, d = 0, 1, 2, 3`. -/
def endToEndCircuit : CirqCircuit :=
  [[.gateOperation .singleQubitGate [0], .gateOperation .singleQubitGate [2]],
   [.gateOperation sqrtISwapFSimGate [0, 1], .gateOperation sqrtISwapFSimGate [2, 3]],
   [.gateOperation sqrtISwapFSimGate [1, 2]],
   [.gateOperation .waitGate [1]]]

/-- The first circuit of the merge-across-calls scenario
(`[X(a), Y(c)], [FSim(a, b), FSim(c, d)], [FSim(b, c)], [FSim(a, b)]`
with `a .. e = 0 .. 4`). -/
def mergeAcrossCallsCircuitOne : CirqCircuit :=
  [[.gateOperation .singleQubitGate [0], .gateOperation .singleQubitGate [2]],
   [.gateOperation sqrtISwapFSimGate [0, 1], .gateOperation sqrtISwapFSimGate [2, 3]],
   [.gateOperation sqrtISwapFSimGate [1, 2]],
   [.gateOperation sqrtISwapFSimGate [0, 1]]]

/-- The second circuit of the merge-across-calls scenario
(`[FSim(b, c), FSim(d, e)]`). -/
def mergeAcrossCallsCircuitTwo : CirqCircuit :=
  [[.gateOperation sqrtISwapFSimGate [1, 2], .gateOperation sqrtISwapFSimGate [3, 4]]]

/-- Two qubit tuples are disjoint: no qubit occurs in both. -/
def qubitPairsDisjoint (p q : QubitPair) : Prop := ∀ x ∈ p, x ∉ q

/-- The invariant of a request's `pairs` tuple: no qubit appears in more
than one pair. -/
def noQubitInTwoPairs (pairs : List QubitPair) : Prop :=
  List.Pairwise qubitPairsDisjoint pairs

/-- The qubit tuple of an operation (empty for non-gate operations). -/
def Operation.opQubits : Operation → List Qid
  | .gateOperation _ qubits => qubits
  | .nonGateOperation => []

/-- Validity of a cirq moment: its operations act on pairwise-disjoint
qubit tuples (cirq's `Moment` class enforces this). -/
def momentOpsDisjoint (moment : Moment) : Prop :=
  List.Pairwise (fun o1 o2 => ∀ x ∈ o1.opQubits, x ∉ o2.opQubits) moment

/-- Decision procedure for `momentOpsDisjoint`, so that concrete moments can
be checked by evaluation. -/
def decideMomentOpsDisjoint : (m : Moment) → Decidable (momentOpsDisjoint m)
  | [] => .isTrue List.Pairwise.nil
  | op :: rest =>
    match List.decidableBAll (fun o2 => ∀ x ∈ op.opQubits, x ∉ o2.opQubits) rest,
        decideMomentOpsDisjoint rest with
    | .isTrue h1, .isTrue h2 => .isTrue (List.Pairwise.cons h1 h2)
    | .isFalse h1, _ => .isFalse (fun hp => h1 (List.pairwise_cons.mp hp).1)
    | _, .isFalse h2 => .isFalse (fun hp => h2 (List.pairwise_cons.mp hp).2)

instance (m : Moment) : Decidable (momentOpsDisjoint m) := decideMomentOpsDisjoint m

instance {e a : Type} [DecidableEq e] [DecidableEq a] : DecidableEq (Except e a) := fun x y =>
  match x, y with
  | .ok v, .ok w =>
    if h : v = w then .isTrue (by rw [h]) else .isFalse (by intro hh; cases hh; exact h rfl)
  | .error v, .error w =>
    if h : v = w then .isTrue (by rw [h]) else .isFalse (by intro hh; cases hh; exact h rfl)
  | .ok _, .error _ => .isFalse (by intro hh; cases hh)
  | .error _, .ok _ => .isFalse (by intro hh; cases hh)

theorem quarterRat_eq_one_div_four : quarterRat = 1 / 4 := by
  unfold quarterRat
  rw [Rat.mk'_eq_divInt, Rat.divInt_eq_div]
  norm_num

/-- C8: for all parameter records P and Q such that every field of P that is
None is also None in Q, `P.merge_with(Q).override_by(P) == P`; in particular
this holds whenever P has all five angles set. -/
theorem merge_with_override_by_restores (P Q : PhasedFSimParameters)
    (htheta : P.theta = none → Q.theta = none)
    (hzeta : P.zeta = none → Q.zeta = none)
    (hchi : P.chi = none → Q.chi = none)
    (hgamma : P.gamma = none → Q.gamma = none)
    (hphi : P.phi = none → Q.phi = none) :
    (P.merge_with Q).override_by P = P := by
  obtain ⟨t, z, c, g, p⟩ := P
  obtain ⟨t2, z2, c2, g2, p2⟩ := Q
  simp only at htheta hzeta hchi hgamma hphi
  cases t <;> cases z <;> cases c <;> cases g <;> cases p <;>
    simp_all [PhasedFSimParameters.merge_with, PhasedFSimParameters.override_by]

theorem merge_with_override_by_restores_witness :
    (((⟨some 1, some 2, some 3, some 4, some 5⟩ : PhasedFSimParameters).merge_with
        ⟨none, some 7, none, none, none⟩).override_by
      ⟨some 1, some 2, some 3, some 4, some 5⟩) =
      ⟨some 1, some 2, some 3, some 4, some 5⟩ :=
  merge_with_override_by_restores _ _ (by simp) (by simp) (by simp) (by simp) (by simp)

/-- C9: `get_parameters(a, b)` returns the stored record unchanged when
`(a, b)` is a key, the stored record with zeta and chi negated (theta, gamma,
phi unchanged) when only `(b, a)` is a key, and None when neither is. -/
theorem get_parameters_orientation (r : PhasedFSimCalibrationResult) (a b : Qid) :
    r.get_parameters a b =
      match r.parameters (a, b), r.parameters (b, a) with
      | some p, _ => some p
      | none, some p =>
        some ⟨p.theta,
          match p.zeta with | some z => some (-z) | none => none,
          match p.chi with | some c => some (-c) | none => none,
          p.gamma, p.phi⟩
      | none, none => none := by
  unfold PhasedFSimCalibrationResult.get_parameters
  cases h1 : r.parameters (a, b) <;> cases h2 : r.parameters (b, a) <;>
    simp [PhasedFSimParameters.parameters_for_qubits_swapped]

/-- C10: `run_characterizations` validates `max_layers_per_request` before
the empty-list short-circuit: on an empty request list it raises the
batch-size `ValueError` whenever the bound is below one and otherwise
returns the empty result list for every engine value, without inspecting
the engine. -/
theorem run_characterizations_checks_batch_size_first {R : Type}
    (engine : EngineBackend R) (processor_id : Option String) (m : Int) :
    run_characterizations [] engine processor_id m =
      if m < 1 then
        .error (.valueError "Maximum number of layers per request must be at least 1")
      else .ok [] := by
  unfold run_characterizations
  split <;> simp

/-- C3: the four-moment circuit `[X(a), Y(c)]`, `[FSim(a, b), FSim(c, d)]`,
`[FSim(b, c)]`, `[Wait(b)]` yields exactly the two requests with pairs
`((a, b), (c, d))` and `((b, c))` and the moment map `[None, 0, 1, None]`. -/
theorem floquet_characterization_end_to_end :
    floquet_characterization_for_circuit endToEndCircuit 0 sqrt_iswap_gates_translator
      FloquetPhasedFSimCalibrationOptions.all_except_for_chi_options true none =
    .ok ([⟨⟨quarterRat, 0⟩, 0, [[0, 1], [2, 3]],
            FloquetPhasedFSimCalibrationOptions.all_except_for_chi_options⟩,
          ⟨⟨quarterRat, 0⟩, 0, [[1, 2]],
            FloquetPhasedFSimCalibrationOptions.all_except_for_chi_options⟩],
         [none, some 0, some 1, none]) := by
  decide

/-- C4: characterizing the first merge-across-calls circuit gives the
requests `((a, b), (c, d))` and `((b, c))` with map `[None, 0, 1, 0]`; the
second call, seeded with that result as `initial`, does not fold the
candidate `((b, c), (d, e))` into existing request 1 but appends it as a
brand-new request 2 (the merge pool `pairs_map` restarts empty), and
returns the first call's map entries with `2` appended instead of a map for
the second circuit alone.  This contradicts the merge-across-calls test of
workflow_test.py, which expects two requests (`((b, c), (d, e))` folded into
request 1) and the map `[1]`. -/
theorem across_calls_appends_instead_of_merging :
    floquet_characterization_for_circuit mergeAcrossCallsCircuitOne 0
      sqrt_iswap_gates_translator
      FloquetPhasedFSimCalibrationOptions.all_except_for_chi_options true none =
      .ok ([⟨⟨quarterRat, 0⟩, 0, [[0, 1], [2, 3]],
              FloquetPhasedFSimCalibrationOptions.all_except_for_chi_options⟩,
            ⟨⟨quarterRat, 0⟩, 0, [[1, 2]],
              FloquetPhasedFSimCalibrationOptions.all_except_for_chi_options⟩],
           [none, some 0, some 1, some 0]) ∧
    floquet_characterization_for_circuit mergeAcrossCallsCircuitTwo 0
      sqrt_iswap_gates_translator
      FloquetPhasedFSimCalibrationOptions.all_except_for_chi_options true
      (some ([⟨⟨quarterRat, 0⟩, 0, [[0, 1], [2, 3]],
                FloquetPhasedFSimCalibrationOptions.all_except_for_chi_options⟩,
              ⟨⟨quarterRat, 0⟩, 0, [[1, 2]],
                FloquetPhasedFSimCalibrationOptions.all_except_for_chi_options⟩],
             [none, some 0, some 1, some 0])) =
      .ok ([⟨⟨quarterRat, 0⟩, 0, [[0, 1], [2, 3]],
              FloquetPhasedFSimCalibrationOptions.all_except_for_chi_options⟩,
            ⟨⟨quarterRat, 0⟩, 0, [[1, 2]],
              FloquetPhasedFSimCalibrationOptions.all_except_for_chi_options⟩,
            ⟨⟨quarterRat, 0⟩, 0, [[1, 2], [3, 4]],
              FloquetPhasedFSimCalibrationOptions.all_except_for_chi_options⟩],
           [none, some 0, some 1, some 0, some 2]) := by
  constructor
  · decide
  · decide

/-- C5: with a hardware engine, a non-empty request list and a valid batch
size, `run_characterizations` raises a `NameError` (the undefined
`handler_name` of workflow.py line 204) before issuing any backend call, so
the batching/parsing/progress behaviour the claim describes never runs. -/
theorem run_characterizations_engine_raises_name_error :
    run_characterizations
      [⟨⟨quarterRat, 0⟩, 0, [[0, 1]], FloquetPhasedFSimCalibrationOptions.all_options⟩]
      (.hardwareEngine : EngineBackend Unit) (some "qproc") 1 =
      .error (.nameError "name handler_name is not defined") := by
  decide

theorem mem_requestQubits {pairs : List QubitPair} {q : Qid} :
    q ∈ requestQubits pairs ↔ ∃ p ∈ pairs, q ∈ p := by
  simp [requestQubits, List.mem_dedup, List.mem_flatten]

/-- C6: with merging enabled, a candidate request sharing its gate, gate set
and options with an existing request but no qubit with it (so neither
pair-set contains the other) replaces that request by one whose pairs tuple
is the sorted union of both pair sets, reusing the existing index; no new
request is appended. -/
theorem merge_into_calibrations_unions_disjoint
    (calibration existing : FloquetPhasedFSimCalibrationRequest)
    (gate_set : Nat) (options : FloquetPhasedFSimCalibrationOptions)
    (hg : calibration.gate = existing.gate)
    (hgs : calibration.gate_set = existing.gate_set)
    (ho : calibration.options = existing.options)
    (hdisj : ∀ q ∈ requestQubits calibration.pairs, q ∉ requestQubits existing.pairs)
    (hne1 : calibration.pairs ≠ []) (hne2 : existing.pairs ≠ [])
    (hp1 : ∀ p ∈ calibration.pairs, p ≠ ([] : QubitPair))
    (hp2 : ∀ p ∈ existing.pairs, p ≠ ([] : QubitPair)) :
    merge_into_calibrations calibration [existing] [(existing.pairs, 0)] gate_set options =
      .ok ([{ gate := calibration.gate, gate_set := gate_set,
              pairs := sortedPairsUnion calibration.pairs existing.pairs,
              options := options }], [(existing.pairs, 0)], 0) := by
  have h1 : pairsSubset calibration.pairs existing.pairs = false := by
    rcases List.exists_mem_of_ne_nil _ hne1 with ⟨p0, hp0⟩
    rcases List.exists_mem_of_ne_nil _ (hp1 p0 hp0) with ⟨q0, hq0⟩
    have hq0c : q0 ∈ requestQubits calibration.pairs := mem_requestQubits.mpr ⟨p0, hp0, hq0⟩
    have hno : p0 ∉ existing.pairs := fun hmem =>
      hdisj q0 hq0c (mem_requestQubits.mpr ⟨p0, hmem, hq0⟩)
    simp only [pairsSubset, List.all_eq_false, decide_eq_true_eq]
    exact ⟨p0, hp0, hno⟩
  have h2 : pairsSubset existing.pairs calibration.pairs = false := by
    rcases List.exists_mem_of_ne_nil _ hne2 with ⟨p0, hp0⟩
    rcases List.exists_mem_of_ne_nil _ (hp2 p0 hp0) with ⟨q0, hq0⟩
    have hno : p0 ∉ calibration.pairs := fun hmem =>
      hdisj q0 (mem_requestQubits.mpr ⟨p0, hmem, hq0⟩)
        (mem_requestQubits.mpr ⟨p0, hp0, hq0⟩)
    simp only [pairsSubset, List.all_eq_false, decide_eq_true_eq]
    exact ⟨p0, hp0, hno⟩
  have h3 : compatibleQubitPairs calibration.pairs existing.pairs = true := by
    simp only [compatibleQubitPairs, List.all_eq_true]
    intro q hq
    simp [hdisj q hq]
  unfold merge_into_calibrations
  simp only [List.map]
  unfold mergeLoop
  simp only [List.getD_cons_zero, hg, hgs, ho, ne_eq, not_true_eq_false, if_false,
    Bool.false_eq_true, h1, h2, h3, if_true, List.set]

theorem merge_into_calibrations_unions_disjoint_witness :
    merge_into_calibrations
      ⟨⟨quarterRat, 0⟩, 5, [[0, 1]], FloquetPhasedFSimCalibrationOptions.all_options⟩
      [⟨⟨quarterRat, 0⟩, 5, [[2, 3]], FloquetPhasedFSimCalibrationOptions.all_options⟩]
      [([[2, 3]], 0)] 5 FloquetPhasedFSimCalibrationOptions.all_options =
      .ok ([⟨⟨quarterRat, 0⟩, 5, [[0, 1], [2, 3]],
              FloquetPhasedFSimCalibrationOptions.all_options⟩], [([[2, 3]], 0)], 0) :=
  (merge_into_calibrations_unions_disjoint
    ⟨⟨quarterRat, 0⟩, 5, [[0, 1]], FloquetPhasedFSimCalibrationOptions.all_options⟩
    ⟨⟨quarterRat, 0⟩, 5, [[2, 3]], FloquetPhasedFSimCalibrationOptions.all_options⟩
    5 FloquetPhasedFSimCalibrationOptions.all_options rfl rfl rfl (by decide)
    (by decide) (by decide) (by decide) (by decide)).trans (by decide)

theorem momentScan_error_is_incompatible (t : CirqGate → Option (FSimGate ℚ)) (co : Bool) :
    ∀ (ops : List Operation) (st : MomentScanState) (e : WorkflowError),
      momentScan t co ops st = .error e → ∃ msg, e = .incompatibleMomentError msg := by
  intro ops
  induction ops with
  | nil => intro st e h; simp [momentScan] at h
  | cons op rest ih =>
    intro st e h
    cases op with
    | nonGateOperation =>
      simp only [momentScan] at h
      cases h
      exact ⟨_, rfl⟩
    | gateOperation g qs =>
      simp only [momentScan] at h
      split at h
      · exact ih _ _ h
      · split at h
        · exact ih _ _ h
        · split at h
          · cases h; exact ⟨_, rfl⟩
          · split at h
            · split at h
              · cases h; exact ⟨_, rfl⟩
              · exact ih _ _ h
            · exact ih _ _ h

theorem momentScan_mono (t : CirqGate → Option (FSimGate ℚ)) (co : Bool) :
    ∀ (ops : List Operation) (st st' : MomentScanState),
      momentScan t co ops st = .ok st' →
      (st.measurement = true → st'.measurement = true) ∧
      (st.single_qubit = true → st'.single_qubit = true) ∧
      (st.gate.isSome = true → st'.gate.isSome = true) := by
  intro ops
  induction ops with
  | nil =>
    intro st st' h
    simp only [momentScan] at h
    cases h
    exact ⟨id, id, id⟩
  | cons op rest ih =>
    intro st st' h
    cases op with
    | nonGateOperation => simp [momentScan] at h
    | gateOperation g qs =>
      simp only [momentScan] at h
      split at h
      · obtain ⟨m, s, o⟩ := ih _ _ h
        exact ⟨fun _ => m rfl, s, o⟩
      · split at h
        · obtain ⟨m, s, o⟩ := ih _ _ h
          exact ⟨m, fun _ => s rfl, o⟩
        · split at h
          · cases h
          · split at h
            · split at h
              · cases h
              · obtain ⟨m, s, o⟩ := ih _ _ h
                exact ⟨m, s, fun _ => o rfl⟩
            · obtain ⟨m, s, o⟩ := ih _ _ h
              exact ⟨m, s, fun _ => o rfl⟩

theorem momentScan_flag (t : CirqGate → Option (FSimGate ℚ)) (co : Bool) :
    ∀ (ops : List Operation) (st st' : MomentScanState),
      momentScan t co ops st = .ok st' →
      ∀ g qs, Operation.gateOperation g qs ∈ ops →
      (g.isMeasurementGate || g.isSingleQubitGate) = true →
      (st'.measurement || st'.single_qubit) = true := by
  intro ops
  induction ops with
  | nil => intro st st' h g qs hmem; simp at hmem
  | cons op rest ih =>
    intro st st' h g qs hmem hflag
    rcases List.mem_cons.mp hmem with heq | htail
    · subst heq
      simp only [momentScan] at h
      rcases (show g.isMeasurementGate = true ∨ g.isSingleQubitGate = true by
        simpa using hflag) with hm | hs
      · rw [if_pos hm] at h
        have := (momentScan_mono t co rest _ _ h).1 (by simp)
        simp [this]
      · by_cases hm2 : g.isMeasurementGate = true
        · rw [if_pos hm2] at h
          have := (momentScan_mono t co rest _ _ h).1 (by simp)
          simp [this]
        · rw [if_neg hm2, if_pos hs] at h
          have := (momentScan_mono t co rest _ _ h).2.1 (by simp)
          simp [this]
    · cases op with
      | nonGateOperation => simp [momentScan] at h
      | gateOperation g2 qs2 =>
        simp only [momentScan] at h
        split at h
        · exact ih _ _ h g qs htail hflag
        · split at h
          · exact ih _ _ h g qs htail hflag
          · split at h
            · cases h
            · split at h
              · split at h
                · cases h
                · exact ih _ _ h g qs htail hflag
              · exact ih _ _ h g qs htail hflag

theorem momentScan_gate (t : CirqGate → Option (FSimGate ℚ)) (co : Bool) :
    ∀ (ops : List Operation) (st st' : MomentScanState),
      momentScan t co ops st = .ok st' →
      ∀ g qs, Operation.gateOperation g qs ∈ ops →
      g.isMeasurementGate = false → g.isSingleQubitGate = false →
      (t g).isSome = true → st'.gate.isSome = true := by
  intro ops
  induction ops with
  | nil => intro st st' h g qs hmem; simp at hmem
  | cons op rest ih =>
    intro st st' h g qs hmem hm hs ht
    rcases List.mem_cons.mp hmem with heq | htail
    · subst heq
      simp only [momentScan] at h
      rw [if_neg (by simp [hm]), if_neg (by simp [hs])] at h
      obtain ⟨tg, htg⟩ := Option.isSome_iff_exists.mp ht
      simp only [htg] at h
      split at h
      · split at h
        · cases h
        · exact (momentScan_mono t co rest _ _ h).2.2 (by simp)
      · exact (momentScan_mono t co rest _ _ h).2.2 (by simp)
    · cases op with
      | nonGateOperation => simp [momentScan] at h
      | gateOperation g2 qs2 =>
        simp only [momentScan] at h
        split at h
        · exact ih _ _ h g qs htail hm hs ht
        · split at h
          · exact ih _ _ h g qs htail hm hs ht
          · split at h
            · cases h
            · split at h
              · split at h
                · cases h
                · exact ih _ _ h g qs htail hm hs ht
              · exact ih _ _ h g qs htail hm hs ht

/-- C7: a moment containing a translatable two-qubit gate operation together
with a single-qubit or measurement gate operation makes the classifier raise
`IncompatibleMomentError` rather than return a request or None. -/
theorem mixed_moment_raises_incompatible (moment : Moment)
    (options : FloquetPhasedFSimCalibrationOptions) (gate_set : Nat)
    (t : CirqGate → Option (FSimGate ℚ)) (co so : Bool)
    (g1 : CirqGate) (qs1 : List Qid) (h1 : Operation.gateOperation g1 qs1 ∈ moment)
    (hm1 : g1.isMeasurementGate = false) (hs1 : g1.isSingleQubitGate = false)
    (ht : (t g1).isSome = true)
    (g2 : CirqGate) (qs2 : List Qid) (h2 : Operation.gateOperation g2 qs2 ∈ moment)
    (hms : (g2.isMeasurementGate || g2.isSingleQubitGate) = true) :
    ∃ msg, floquet_characterization_for_moment moment options gate_set t co so =
      .error (.incompatibleMomentError msg) := by
  cases hscan : momentScan t co moment ⟨false, false, none, []⟩ with
  | error e =>
    obtain ⟨msg, rfl⟩ := momentScan_error_is_incompatible t co moment _ e hscan
    exact ⟨msg, by simp [floquet_characterization_for_moment, hscan]⟩
  | ok st =>
    have hg := momentScan_gate t co moment _ st hscan g1 qs1 h1 hm1 hs1 ht
    have hf := momentScan_flag t co moment _ st hscan g2 qs2 h2 hms
    obtain ⟨gate, hgate⟩ := Option.isSome_iff_exists.mp hg
    refine ⟨"Moment contains mixed two-qubit operations and single-qubit operations or measurement operations.", ?_⟩
    simp [floquet_characterization_for_moment, hscan, hgate, hf]

theorem mixed_moment_raises_incompatible_witness :
    ∃ msg, floquet_characterization_for_moment
      [.gateOperation sqrtISwapFSimGate [0, 1], .gateOperation .singleQubitGate [2]]
      FloquetPhasedFSimCalibrationOptions.all_options 0
      sqrt_iswap_gates_translator true true =
      .error (.incompatibleMomentError msg) :=
  mixed_moment_raises_incompatible _ _ _ _ _ _ sqrtISwapFSimGate [0, 1] (by decide)
    (by decide) (by decide) (by decide) .singleQubitGate [2] (by decide) (by decide)
theorem qubitPairsDisjoint_symmetric : Symmetric qubitPairsDisjoint :=
  fun _ _ h x hxq hxp => h x hxp hxq

theorem noQubitInTwoPairs_of_perm {l l' : List QubitPair} (hperm : l.Perm l')
    (h : noQubitInTwoPairs l) : noQubitInTwoPairs l' :=
  (hperm.pairwise_iff (fun hpq => qubitPairsDisjoint_symmetric hpq)).mp h

theorem noQubitInTwoPairs_sortedPairs {l : List QubitPair}
    (h : noQubitInTwoPairs l) : noQubitInTwoPairs (sortedPairs l) :=
  noQubitInTwoPairs_of_perm (List.perm_insertionSort pairLe l).symm h

theorem disjoint_mem_unique {l : List QubitPair} (hd : noQubitInTwoPairs l)
    {p1 p2 : QubitPair} (h1 : p1 ∈ l) (h2 : p2 ∈ l) {q : Qid}
    (hq1 : q ∈ p1) (hq2 : q ∈ p2) : p1 = p2 := by
  induction l with
  | nil => simp at h1
  | cons hd0 tl ih =>
    rcases List.mem_cons.mp h1 with rfl | m1 <;> rcases List.mem_cons.mp h2 with rfl | m2
    · rfl
    · exact absurd hq2 ((List.pairwise_cons.mp hd).1 p2 m2 q hq1)
    · exact absurd hq1 ((List.pairwise_cons.mp hd).1 p1 m1 q hq2)
    · exact ih (List.pairwise_cons.mp hd).2 m1 m2

theorem qubitPairOf_eq_of_mem {l : List QubitPair} (hd : noQubitInTwoPairs l)
    {p : QubitPair} (hp : p ∈ l) {q : Qid} (hq : q ∈ p) :
    qubitPairOf l q = some p := by
  induction l with
  | nil => simp at hp
  | cons hd0 tl ih =>
    rcases List.mem_cons.mp hp with rfl | m
    · simp [qubitPairOf, List.find?_cons_of_pos, hq]
    · have hq0 : q ∉ hd0 := fun hmem => absurd hq ((List.pairwise_cons.mp hd).1 p m q hmem)
      unfold qubitPairOf
      rw [List.find?_cons_of_neg _ (by simpa using hq0)]
      exact ih (List.pairwise_cons.mp hd).2 m

theorem sortedPairsUnion_noQubitInTwoPairs {A B : List QubitPair}
    (hA : noQubitInTwoPairs A) (hB : noQubitInTwoPairs B)
    (hc : compatibleQubitPairs A B = true) :
    noQubitInTwoPairs (sortedPairsUnion A B) := by
  have hdistinct : ∀ p1 ∈ A ++ B, ∀ p2 ∈ A ++ B, p1 ≠ p2 → qubitPairsDisjoint p1 p2 := by
    intro p1 h1 p2 h2 hne x hx1 hx2
    apply hne
    rcases List.mem_append.mp h1 with a1 | b1 <;> rcases List.mem_append.mp h2 with a2 | b2
    · exact disjoint_mem_unique hA a1 a2 hx1 hx2
    · have hxA : x ∈ requestQubits A := mem_requestQubits.mpr ⟨p1, a1, hx1⟩
      have hxB : x ∈ requestQubits B := mem_requestQubits.mpr ⟨p2, b2, hx2⟩
      have hb := (List.all_eq_true.mp hc) x hxA
      simp [hxB] at hb
      have e1 : qubitPairOf A x = some p1 := qubitPairOf_eq_of_mem hA a1 hx1
      have e2 : qubitPairOf B x = some p2 := qubitPairOf_eq_of_mem hB b2 hx2
      rw [e1, e2] at hb
      exact Option.some.inj hb
    · have hxA : x ∈ requestQubits A := mem_requestQubits.mpr ⟨p2, a2, hx2⟩
      have hxB : x ∈ requestQubits B := mem_requestQubits.mpr ⟨p1, b1, hx1⟩
      have hb := (List.all_eq_true.mp hc) x hxA
      simp [hxB] at hb
      have e1 : qubitPairOf A x = some p2 := qubitPairOf_eq_of_mem hA a2 hx2
      have e2 : qubitPairOf B x = some p1 := qubitPairOf_eq_of_mem hB b1 hx1
      rw [e1, e2] at hb
      exact (Option.some.inj hb).symm
    · exact disjoint_mem_unique hB b1 b2 hx1 hx2
  have hnd : (A ++ B).dedup.Nodup := List.nodup_dedup _
  have hpw : List.Pairwise qubitPairsDisjoint (A ++ B).dedup := by
    refine hnd.imp_of_mem ?_
    intro a b ha hb hne
    exact hdistinct a (List.mem_dedup.mp ha) b (List.mem_dedup.mp hb) hne
  exact noQubitInTwoPairs_of_perm (List.perm_insertionSort pairLe _).symm hpw

theorem mem_canonical_pair {co : Bool} {qs : List Qid} {x : Qid} :
    x ∈ (if co = true then sortedQubits qs else qs) ↔ x ∈ qs := by
  split
  · exact (List.perm_insertionSort natLe qs).mem_iff
  · exact Iff.rfl

theorem momentScan_pairs_disjoint (t : CirqGate → Option (FSimGate ℚ)) (co : Bool) :
    ∀ (ops : List Operation) (st st' : MomentScanState),
      momentScan t co ops st = .ok st' →
      noQubitInTwoPairs st.pairs →
      (∀ p ∈ st.pairs, ∀ op ∈ ops, ∀ x ∈ p, x ∉ op.opQubits) →
      List.Pairwise (fun o1 o2 => ∀ x ∈ o1.opQubits, x ∉ o2.opQubits) ops →
      noQubitInTwoPairs st'.pairs := by
  intro ops
  induction ops with
  | nil =>
    intro st st' h hp _ _
    simp only [momentScan] at h
    cases h
    exact hp
  | cons op rest ih =>
    intro st st' h hp hcross hops
    cases op with
    | nonGateOperation => simp [momentScan] at h
    | gateOperation g qs =>
      have hheadDisj := (List.pairwise_cons.mp hops).1
      have hopsTail := (List.pairwise_cons.mp hops).2
      simp only [momentScan] at h
      split at h
      · refine ih _ _ h hp ?_ hopsTail
        intro p hp2 op hop x hx
        exact hcross p hp2 op (List.mem_cons_of_mem _ hop) x hx
      · split at h
        · refine ih _ _ h hp ?_ hopsTail
          intro p hp2 op hop x hx
          exact hcross p hp2 op (List.mem_cons_of_mem _ hop) x hx
        · split at h
          · cases h
          · have hnew : noQubitInTwoPairs
                (st.pairs ++ [if co = true then sortedQubits qs else qs]) := by
              refine List.pairwise_append.mpr ⟨hp, List.pairwise_singleton _ _, ?_⟩
              intro p hpmem pn hpn x hx
              have hpn2 : pn = if co = true then sortedQubits qs else qs := by
                simpa using hpn
              subst hpn2
              intro hxq
              exact hcross p hpmem (.gateOperation g qs) (List.mem_cons_self _ _) x hx
                (mem_canonical_pair.mp hxq)
            have hcross2 : ∀ p ∈ st.pairs ++ [if co = true then sortedQubits qs else qs],
                ∀ op ∈ rest, ∀ x ∈ p, x ∉ op.opQubits := by
              intro p hpmem op2 hop2 x hx
              rcases List.mem_append.mp hpmem with hold | hnew2
              · exact hcross p hold op2 (List.mem_cons_of_mem _ hop2) x hx
              · have hpn2 : p = if co = true then sortedQubits qs else qs := by
                  simpa using hnew2
                subst hpn2
                exact hheadDisj op2 hop2 x (mem_canonical_pair.mp hx)
            split at h
            · split at h
              · cases h
              · exact ih _ _ h hnew hcross2 hopsTail
            · exact ih _ _ h hnew hcross2 hopsTail

theorem floquet_characterization_for_moment_disjoint
    (moment : Moment) (options : FloquetPhasedFSimCalibrationOptions) (gate_set : Nat)
    (t : CirqGate → Option (FSimGate ℚ)) (co so : Bool)
    (c : FloquetPhasedFSimCalibrationRequest)
    (hm : momentOpsDisjoint moment)
    (h : floquet_characterization_for_moment moment options gate_set t co so =
      .ok (some c)) :
    noQubitInTwoPairs c.pairs := by
  unfold floquet_characterization_for_moment at h
  cases hscan : momentScan t co moment ⟨false, false, none, []⟩ with
  | error e => rw [hscan] at h; cases h
  | ok st =>
    rw [hscan] at h
    have hstp : noQubitInTwoPairs st.pairs :=
      momentScan_pairs_disjoint t co moment _ st hscan List.Pairwise.nil (by simp) hm
    cases hg : st.gate with
    | none => simp [hg] at h
    | some gate =>
      simp only [hg] at h
      cases hflag : (st.measurement || st.single_qubit) with
      | true => simp [hflag] at h
      | false =>
        simp only [hflag, Bool.false_eq_true, if_false, Except.ok.injEq,
          Option.some.injEq] at h
        subst h
        show noQubitInTwoPairs (if so = true then sortedPairs st.pairs else st.pairs)
        split
        · exact noQubitInTwoPairs_sortedPairs hstp
        · exact hstp

theorem getD_noQubitInTwoPairs (cals : List FloquetPhasedFSimCalibrationRequest)
    (i : Nat) (hall : ∀ r ∈ cals, noQubitInTwoPairs r.pairs) :
    noQubitInTwoPairs ((cals.getD i default).pairs) := by
  by_cases hlt : i < cals.length
  · rw [List.getD_eq_getElem cals default hlt]
    exact hall _ (List.getElem_mem hlt)
  · rw [List.getD_eq_default cals default (le_of_not_lt hlt)]
    exact List.Pairwise.nil

theorem mergeLoop_preserves (calibration : FloquetPhasedFSimCalibrationRequest)
    (gs : Nat) (opt : FloquetPhasedFSimCalibrationOptions) :
    ∀ (values : List Nat) (cals cals' : List FloquetPhasedFSimCalibrationRequest)
      (idx : Nat),
      mergeLoop calibration gs opt cals values = .ok (some (cals', idx)) →
      (∀ r ∈ cals, noQubitInTwoPairs r.pairs) →
      noQubitInTwoPairs calibration.pairs →
      ∀ r ∈ cals', noQubitInTwoPairs r.pairs := by
  intro values
  induction values with
  | nil => intro cals cals' idx h; simp [mergeLoop] at h
  | cons index rest ih =>
    intro cals cals' idx h hall hcal
    simp only [mergeLoop] at h
    split at h
    · cases h
    · split at h
      · cases h
      · split at h
        · cases h
        · split at h
          · cases h
            exact hall
          · split at h
            · cases h
              intro r hr
              rcases List.mem_or_eq_of_mem_set hr with hmem | rfl
              · exact hall r hmem
              · exact hcal
            · split at h
              · cases h
                intro r hr
                rcases List.mem_or_eq_of_mem_set hr with hmem | rfl
                · exact hall r hmem
                · rename_i hcompat
                  exact sortedPairsUnion_noQubitInTwoPairs hcal
                    (getD_noQubitInTwoPairs cals index hall) hcompat
              · exact ih _ _ _ h hall hcal

theorem merge_into_calibrations_preserves
    (calibration : FloquetPhasedFSimCalibrationRequest)
    (cals : List FloquetPhasedFSimCalibrationRequest)
    (pm : List (List QubitPair × Nat)) (gs : Nat)
    (opt : FloquetPhasedFSimCalibrationOptions)
    (cals' : List FloquetPhasedFSimCalibrationRequest)
    (pm' : List (List QubitPair × Nat)) (idx : Nat)
    (h : merge_into_calibrations calibration cals pm gs opt = .ok (cals', pm', idx))
    (hall : ∀ r ∈ cals, noQubitInTwoPairs r.pairs)
    (hcal : noQubitInTwoPairs calibration.pairs) :
    ∀ r ∈ cals', noQubitInTwoPairs r.pairs := by
  unfold merge_into_calibrations at h
  cases hm : mergeLoop calibration gs opt cals (pm.map (·.2)) with
  | error e => rw [hm] at h; cases h
  | ok o =>
    rw [hm] at h
    cases o with
    | some pr =>
      obtain ⟨c2, i2⟩ := pr
      simp only [Except.ok.injEq, Prod.mk.injEq] at h
      obtain ⟨h1, h2, h3⟩ := h
      subst h1
      exact mergeLoop_preserves calibration gs opt _ cals c2 i2 hm hall hcal
    | none =>
      simp only [Except.ok.injEq] at h
      cases h
      intro r hr
      rcases List.mem_append.mp hr with hmem | hmem
      · exact hall r hmem
      · have : r = calibration := by simpa using hmem
        subst this
        exact hcal

theorem append_if_missing_preserves
    (calibration : FloquetPhasedFSimCalibrationRequest)
    (cals : List FloquetPhasedFSimCalibrationRequest)
    (pm : List (List QubitPair × Nat))
    (cals' : List FloquetPhasedFSimCalibrationRequest)
    (pm' : List (List QubitPair × Nat)) (idx : Nat)
    (h : append_if_missing calibration cals pm = (cals', pm', idx))
    (hall : ∀ r ∈ cals, noQubitInTwoPairs r.pairs)
    (hcal : noQubitInTwoPairs calibration.pairs) :
    ∀ r ∈ cals', noQubitInTwoPairs r.pairs := by
  unfold append_if_missing at h
  split at h
  · cases h
    intro r hr
    rcases List.mem_append.mp hr with hmem | hmem
    · exact hall r hmem
    · have : r = calibration := by simpa using hmem
      subst this
      exact hcal
  · cases h
    exact hall

theorem characterizationLoop_preserves (gs : Nat)
    (t : CirqGate → Option (FSimGate ℚ)) (opt : FloquetPhasedFSimCalibrationOptions)
    (ms : Bool) :
    ∀ (moments : List Moment) (cals : List FloquetPhasedFSimCalibrationRequest)
      (map : List (Option Nat)) (pm : List (List QubitPair × Nat))
      (cals' : List FloquetPhasedFSimCalibrationRequest) (map' : List (Option Nat)),
      characterizationLoop gs t opt ms moments cals map pm = .ok (cals', map') →
      (∀ m ∈ moments, momentOpsDisjoint m) →
      (∀ r ∈ cals, noQubitInTwoPairs r.pairs) →
      ∀ r ∈ cals', noQubitInTwoPairs r.pairs := by
  intro moments
  induction moments with
  | nil =>
    intro cals map pm cals' map' h _ hall
    simp only [characterizationLoop, Except.ok.injEq] at h
    cases h
    exact hall
  | cons m rest ih =>
    intro cals map pm cals' map' h hmom hall
    cases hc : floquet_characterization_for_moment m opt gs t true true with
    | error e => simp [characterizationLoop, hc] at h
    | ok o =>
      cases o with
      | none =>
        simp only [characterizationLoop, hc] at h
        exact ih _ _ _ _ _ h (fun m2 hm2 => hmom m2 (List.mem_cons_of_mem _ hm2)) hall
      | some c =>
        have hcd : noQubitInTwoPairs c.pairs :=
          floquet_characterization_for_moment_disjoint m opt gs t true true c
            (hmom m (List.mem_cons_self _ _)) hc
        simp only [characterizationLoop, hc] at h
        split at h
        · cases hmerge : merge_into_calibrations c cals pm gs opt with
          | error e => simp [hmerge] at h
          | ok triple =>
            obtain ⟨c2, pm2, i2⟩ := triple
            simp only [hmerge] at h
            exact ih _ _ _ _ _ h (fun m2 hm2 => hmom m2 (List.mem_cons_of_mem _ hm2))
              (merge_into_calibrations_preserves c cals pm gs opt c2 pm2 i2 hmerge hall hcd)
        · rcases happ : append_if_missing c cals pm with ⟨c2, pm2, i2⟩
          simp only [happ] at h
          exact ih _ _ _ _ _ h (fun m2 hm2 => hmom m2 (List.mem_cons_of_mem _ hm2))
            (append_if_missing_preserves c cals pm c2 pm2 i2 happ hall hcd)

/-- C2: for every circuit whose moments act on pairwise-disjoint qubit
tuples (and any initial request list already satisfying the invariant),
every request returned by `floquet_characterization_for_circuit` — with
merging on or off, covering subset reuse, superset replacement and
compatible-overlap union — has no qubit in more than one of its pairs. -/
theorem floquet_characterization_requests_disjoint
    (circuit : CirqCircuit) (gate_set : Nat)
    (t : CirqGate → Option (FSimGate ℚ)) (options : FloquetPhasedFSimCalibrationOptions)
    (merge_sub_sets : Bool)
    (initial : Option (List FloquetPhasedFSimCalibrationRequest × List (Option Nat)))
    (cals : List FloquetPhasedFSimCalibrationRequest) (map : List (Option Nat))
    (hmom : ∀ m ∈ circuit, momentOpsDisjoint m)
    (hinit : ∀ pr, initial = some pr → ∀ r ∈ pr.1, noQubitInTwoPairs r.pairs)
    (h : floquet_characterization_for_circuit circuit gate_set t options
      merge_sub_sets initial = .ok (cals, map)) :
    ∀ r ∈ cals, noQubitInTwoPairs r.pairs := by
  unfold floquet_characterization_for_circuit at h
  cases initial with
  | none =>
    exact characterizationLoop_preserves gate_set t options merge_sub_sets
      circuit [] [] [] cals map h hmom (by simp)
  | some pr =>
    obtain ⟨c0, m0⟩ := pr
    exact characterizationLoop_preserves gate_set t options merge_sub_sets
      circuit c0 m0 [] cals map h hmom (hinit (c0, m0) rfl)

theorem floquet_characterization_requests_disjoint_witness :
    noQubitInTwoPairs [[0, 1], [2, 3]] :=
  floquet_characterization_requests_disjoint endToEndCircuit 0
    sqrt_iswap_gates_translator
    FloquetPhasedFSimCalibrationOptions.all_except_for_chi_options true none
    [⟨⟨quarterRat, 0⟩, 0, [[0, 1], [2, 3]],
       FloquetPhasedFSimCalibrationOptions.all_except_for_chi_options⟩,
     ⟨⟨quarterRat, 0⟩, 0, [[1, 2]],
       FloquetPhasedFSimCalibrationOptions.all_except_for_chi_options⟩]
    [none, some 0, some 1, none]
    (by decide) (fun pr hpr => by cases hpr) (by decide)
    ⟨⟨quarterRat, 0⟩, 0, [[0, 1], [2, 3]],
      FloquetPhasedFSimCalibrationOptions.all_except_for_chi_options⟩ (by decide)

theorem exp_mul_rearrange0 (x1 x2 x3 x4 y : ℂ) (hsum : x1 + x2 + (x3 + x4) = y) :
    Complex.exp x1 * Complex.exp x2 * (Complex.exp x3 * Complex.exp x4) =
      Complex.exp y := by
  rw [← Complex.exp_add, ← Complex.exp_add, ← Complex.exp_add, hsum]

theorem exp_mul_rearrange (x1 x2 x3 x4 y1 y2 C : ℂ)
    (hsum : x1 + x2 + (x3 + x4) = y1 + y2) :
    Complex.exp x1 * Complex.exp x2 * (C * (Complex.exp x3 * Complex.exp x4)) =
      Complex.exp y1 * (Complex.exp y2 * C) := by
  calc Complex.exp x1 * Complex.exp x2 * (C * (Complex.exp x3 * Complex.exp x4))
      = Complex.exp x1 * Complex.exp x2 * (Complex.exp x3 * Complex.exp x4) * C := by
        ring
    _ = Complex.exp (x1 + x2 + (x3 + x4)) * C := by
        rw [← Complex.exp_add, ← Complex.exp_add, ← Complex.exp_add]
    _ = Complex.exp (y1 + y2) * C := by rw [hsum]
    _ = Complex.exp y1 * (Complex.exp y2 * C) := by rw [Complex.exp_add]; ring

/-- C1: for every qubit pair, every FSimGate and every characterization, the
three synthesized layers compose (on qubit order (a, b)) to the unitary of
`PhasedFSimGate(theta, -zeta, -chi, -gamma, phi)` up to the global phase
`exp(-i gamma)`, and the index-tag list is `[None, characterization_index,
None]`. -/
theorem create_corrected_fsim_gate_phased_fsim_equiv
    (a b : Qid) (hab : a ≠ b) (theta phi ptheta zeta chi gamma pphi : ℝ)
    (characterization_index : Option Nat) :
    ∃ c : ℂ, Complex.abs c = 1 ∧
      layersUnitary a b (create_corrected_fsim_gate (a, b) ⟨theta, phi⟩
        ⟨ptheta, zeta, chi, gamma, pphi⟩ characterization_index).1 =
        c • phasedFSimUnitary theta (-zeta) (-chi) (-gamma) phi ∧
      (create_corrected_fsim_gate (a, b) ⟨theta, phi⟩
        ⟨ptheta, zeta, chi, gamma, pphi⟩ characterization_index).2 =
        [none, characterization_index, none] := by
  refine ⟨Complex.exp (-(gamma : ℂ) * Complex.I), ?_, ?_, rfl⟩
  · rw [Complex.abs_exp]
    simp
  · have hba : ¬(b = a) := fun h => hab h.symm
    simp only [create_corrected_fsim_gate, layersUnitary, momentUnitary,
      correctionOpUnitary, List.foldl, if_pos rfl, hba, if_false, and_self,
      Matrix.mul_one, Matrix.one_mul, if_true]
    simp only [rzOnFirst, rzOnSecond, Matrix.diagonal_mul_diagonal]
    ext i j
    rw [Matrix.diagonal_mul, Matrix.mul_diagonal]
    fin_cases i <;> fin_cases j <;>
      simp [rzPhase, fsimUnitary, phasedFSimUnitary, Matrix.smul_apply, smul_eq_mul,
        Matrix.vecHead, Matrix.vecTail]
    all_goals first
      | (apply exp_mul_rearrange0; ring)
      | (apply exp_mul_rearrange; ring)

theorem create_corrected_fsim_gate_phased_fsim_equiv_witness :
    ∃ c : ℂ, Complex.abs c = 1 ∧
      layersUnitary 0 1 (create_corrected_fsim_gate (0, 1) ⟨1, 2⟩
        ⟨1, 3, 4, 5, 2⟩ (some 5)).1 =
        c • phasedFSimUnitary 1 (-3) (-4) (-5) 2 ∧
      (create_corrected_fsim_gate (0, 1) ⟨(1 : ℝ), 2⟩
        ⟨1, 3, 4, 5, 2⟩ (some 5)).2 = [none, some 5, none] := by
  have h := create_corrected_fsim_gate_phased_fsim_equiv 0 1 (by decide) 1 2 1 3 4 5 2
    (some 5)
  exact h
